import Mathlib

/-!
Shallow embedding of the yenc decoder (yenc.go, package yenc).

Bytes are modelled as `Nat` (values 0..255 in practice), with Go's `uint8`
wrap-around written explicitly as `% 256`.  Go strings are byte sequences,
modelled as `List Nat`.  The buffered input stream is modelled as the list of
newline-terminated lines, each given without its terminating `\n` byte
(`bufio.ReadString`/`ReadBytes` return the line including the terminator; a
trailing unterminated fragment makes them return an error, which every caller
in yenc.go treats exactly like end-of-stream, so such a fragment is the same
as the stream ending).
-/

namespace Yenc

/-- Go `unicode.IsSpace` restricted to ASCII bytes (tab, LF, vertical tab,
form feed, CR, space). -/
def isSpc (b : Nat) : Bool := b == 9 || b == 10 || b == 11 || b == 12 || b == 13 || b == 32

/-- `strings.TrimSpace`, modelled at the byte level for ASCII input.  On pure
ASCII byte sequences this is exactly Go's behavior; Go additionally trims
valid UTF-8 encodings of non-ASCII Unicode spaces (U+0085, U+00A0, ...),
which this model does not decode.  Accordingly, every theorem below that
feeds quantified bytes into a trimmed position restricts them to ASCII
(`b < 128`), where the model and Go provably coincide; the remaining uses are
on concrete ASCII header/trailer text and decimal digits. -/
def trimSpace (l : List Nat) : List Nat := ((l.dropWhile isSpc).reverse.dropWhile isSpc).reverse

/-- `bytes.TrimRight(line, "\r\n")`: drop trailing CR and LF bytes. -/
def trimCRLF (l : List Nat) : List Nat := (l.reverse.dropWhile (fun b => b == 13 || b == 10)).reverse

/-- `strings.Split(s, c)` for a one-byte separator `c`: split on every
occurrence, keeping empty fields. -/
def splitAll (c : Nat) : List Nat → List (List Nat)
  | [] => [[]]
  | b :: rest =>
    match splitAll c rest with
    | [] => [[]]
    | g :: gs => if b = c then [] :: g :: gs else (b :: g) :: gs

/-- `strings.SplitN(s, sep, 2)` for nonempty `sep`: `some (before, after)` at
the first occurrence of `sep`, `none` when `sep` does not occur (Go then
returns `[s]`, i.e. everything is "before"). -/
def splitOnFirst (sep : List Nat) : List Nat → Option (List Nat × List Nat)
  | [] => none
  | b :: rest =>
    if sep.isPrefixOf (b :: rest) then some ([], (b :: rest).drop sep.length)
    else
      match splitOnFirst sep rest with
      | some (pre, post) => some (b :: pre, post)
      | none => none

/-- ASCII literal helper: the bytes of a Lean string literal. -/
def ascii (s : String) : List Nat := s.data.map Char.toNat

/-- Decimal digit parser core for `strconv`: accumulate digits, fail on any
non-digit byte. -/
def parseDecCore (acc : Nat) : List Nat → Option Nat
  | [] => some acc
  | b :: rest => if 48 ≤ b ∧ b ≤ 57 then parseDecCore (acc * 10 + (b - 48)) rest else none

/-- Nonempty all-decimal-digits parse (`strconv` syntax for an unsigned
decimal numeral). -/
def parseDecDigits : List Nat → Option Nat
  | [] => none
  | v => parseDecCore 0 v

/-- Syntax of `strconv.ParseInt(v, 10, _)`: optional single leading sign,
then a nonempty run of decimal digits; `none` is a syntax error. -/
def parseInt10 : List Nat → Option Int
  | [] => none
  | b :: rest =>
    if b = 43 then (parseDecDigits rest).map (fun n => (n : Int))
    else if b = 45 then (parseDecDigits rest).map (fun n => -(n : Int))
    else (parseDecDigits (b :: rest)).map (fun n => (n : Int))

/-- The int64 result Go's `ParseInt`/`Atoi` hand back together with the error:
the parsed value, 0 on a syntax error, or the nearest int64 bound on a range
error. -/
def clampInt64 : Option Int → Int
  | none => 0
  | some n =>
    if n > 9223372036854775807 then 9223372036854775807
    else if n < -9223372036854775808 then -9223372036854775808
    else n

/-- `strconv.Atoi` / `strconv.ParseInt(v, 10, 64)` with the error ignored, as
yenc.go does (`n, _ = strconv.Atoi(v)`). -/
def goAtoi (v : List Nat) : Int := clampInt64 (parseInt10 v)

/-- Value of one hex digit byte, `none` for non-hex bytes. -/
def hexVal (b : Nat) : Option Nat :=
  if 48 ≤ b ∧ b ≤ 57 then some (b - 48)
  else if 97 ≤ b ∧ b ≤ 102 then some (b - 87)
  else if 65 ≤ b ∧ b ≤ 70 then some (b - 55)
  else none

def parseHexCore (acc : Nat) : List Nat → Option Nat
  | [] => some acc
  | b :: rest =>
    match hexVal b with
    | some d => parseHexCore (acc * 16 + d) rest
    | none => none

/-- Nonempty all-hex-digits parse. -/
def parseHexDigits : List Nat → Option Nat
  | [] => none
  | v => parseHexCore 0 v

/-- Keep a parse result only when it fits uint64 (Go's range check). -/
def checkUint64 : Option Nat → Option Nat
  | some n => if n < 18446744073709551616 then some n else none
  | none => none

/-- `strconv.ParseUint(v, 16, 64)` as used in yenc.go: the parsed value is
used only when `err == nil`, so a syntax error or a value outside uint64
range (Go's range error) means "not stored". -/
def goParseUintHex64 (v : List Nat) : Option Nat := checkUint64 (parseHexDigits v)

/-- Decimal numeral for a Nat, most significant digit first (Go
`strconv.FormatInt` for nonnegative values); used by the spec-modelled
encoder. -/
def natToDec (n : Nat) : List Nat :=
  if n = 0 then [48] else ((Nat.digits 10 n).reverse).map (fun d => d + 48)

/-- One bit-reversal round of the reflected CRC-32 (IEEE polynomial
0xEDB88320), as computed by Go's `hash/crc32` IEEE table. -/
def crcRound (c : Nat) : Nat := if c % 2 = 1 then (c / 2) ^^^ 3988292384 else c / 2

/-- Fold one byte into a CRC-32 state. -/
def crcByte (c b : Nat) : Nat :=
  crcRound (crcRound (crcRound (crcRound (crcRound (crcRound (crcRound (crcRound (c ^^^ (b % 256)))))))))

/-- CRC-32 (IEEE) digest of a byte sequence: what `crc32.NewIEEE()` fed with
the bytes returns from `Sum32()`. -/
def crc32IEEE (l : List Nat) : Nat := (l.foldl crcByte 4294967295) ^^^ 4294967295

/-- Marker test `len(s) >= 7 && s[:7] == "=ybegin"`.  yenc.go applies it to
the line including its trailing newline; since the marker contains no newline
the test agrees with testing the line without it. -/
def isYBegin (l : List Nat) : Bool := (ascii "=ybegin").isPrefixOf l

/-- Marker test `len(s) >= 6 && s[:6] == "=ypart"`. -/
def isYPart (l : List Nat) : Bool := (ascii "=ypart").isPrefixOf l

/-- Marker test `len(line) >= 5 && string(line[:5]) == "=yend"` (applied to
the CRLF-trimmed line). -/
def isYEnd (l : List Nat) : Bool := (ascii "=yend").isPrefixOf l

/-- The `Part` struct of yenc.go.  `crc32` is the expected per-part CRC from
the trailer (`0` doubles as "unset", exactly as Go's zero value does); the
running `crcHash` accumulator is not stored: it is fed exactly the bytes of
`Body`, so its digest is `crc32IEEE Body`. -/
structure Part where
  Number : Int := 0
  hsize : Int := 0
  Size : Int := 0
  Begin : Int := 0
  End : Int := 0
  Name : List Nat := []
  cols : Int := 0
  crc32 : Nat := 0
  Body : List Nat := []
deriving DecidableEq, Repr

/-- The distinct error outcomes of the decoder.  `eof` stands for Go's
`io.EOF` (the only read error a plain byte stream can produce); the others
stand for the distinct `fmt.Errorf` sites in yenc.go. -/
inductive Err where
  | eof
  | noPartsFound
  | sizeMismatch
  | partCrcMismatch
  | sessionCrcMismatch
  | trailerOrder
deriving DecidableEq, Repr

/-- `Part.validate` of yenc.go: the body length must equal the trailer `Size`,
and when a (nonzero) per-part CRC was stored it must equal the digest of the
bytes written to the part's accumulator, i.e. of `Body`. -/
def Part.validate (p : Part) : Except Err Unit :=
  if (p.Body.length : Int) ≠ p.Size then .error .sizeMismatch
  else if p.crc32 > 0 ∧ crc32IEEE p.Body ≠ p.crc32 then .error .partCrcMismatch
  else .ok ()

/-- `decoder.validate` of yenc.go: whole-session CRC check, skipped when the
stored expected value is zero.  `sess` is the byte sequence written to the
session accumulator `d.crcHash`. -/
def decoderValidate (sc : Nat) (sess : List Nat) : Except Err Unit :=
  if sc > 0 ∧ crc32IEEE sess ≠ sc then .error .sessionCrcMismatch else .ok ()

/-- The line decoder `decoder.decode`, with the `awaitingSpecial` flag made
explicit.  Go's in-place read/write cursors are replaced by returning the
(possibly shorter) output list together with the updated flag; the byte
arithmetic `(b - 42) & 255` and `((b - 42) & 255 - 64) & 255` on `uint8` is
written `(b + 214) % 256` and `((b + 214) % 256 + 192) % 256`. -/
def decodeLine : Bool → List Nat → List Nat × Bool
  | aw, [] => ([], aw)
  | true, b :: rest =>
    let r := decodeLine false rest
    ((((b + 214) % 256 + 192) % 256) :: r.1, r.2)
  | false, b :: rest =>
    if b = 61 then decodeLine true rest
    else
      let r := decodeLine false rest
      (((b + 214) % 256) :: r.1, r.2)

/-- `decodeLine` threaded over successive lines of one body, the flag carried
across line boundaries (as `d.awaitingSpecial` is in yenc.go). -/
def decodeLines (aw : Bool) : List (List Nat) → List Nat × Bool
  | [] => ([], aw)
  | l :: ls =>
    let r := decodeLine aw l
    let rs := decodeLines r.2 ls
    (r.1 ++ rs.1, rs.2)

/-- Field loop of `decoder.readHeader`: space-split tokens, each trimmed and
split on `=`; recognized keys `size`, `line`, `part` (also sets the multipart
flag), `total`; values parsed best-effort.  Returns the updated
(part, multipart, total). -/
def parseBeginFields : Part → Bool → Int → List (List Nat) → Part × Bool × Int
  | p, mp, tot, [] => (p, mp, tot)
  | p, mp, tot, tok :: rest =>
    match splitAll 61 (trimSpace tok) with
    | k :: v :: _ =>
      if k = ascii "size" then parseBeginFields { p with hsize := goAtoi v } mp tot rest
      else if k = ascii "line" then parseBeginFields { p with cols := goAtoi v } mp tot rest
      else if k = ascii "part" then parseBeginFields { p with Number := goAtoi v } true tot rest
      else if k = ascii "total" then parseBeginFields p mp (goAtoi v) rest
      else parseBeginFields p mp tot rest
    | _ => parseBeginFields p mp tot rest

/-- `decoder.readHeader` applied to the found `=ybegin` line (the line is
passed without its newline, which yenc.go's string retains, so it is
re-appended here before the byte-exact splits).  The text after the first
`name=` becomes `Name` (trimmed); the text before it is token-parsed. -/
def parseBeginHeader (mp : Bool) (tot : Int) (l : List Nat) : Part × Bool × Int :=
  match splitOnFirst (ascii "name=") ((l ++ [10]).drop 7) with
  | some (pre, post) => parseBeginFields { Name := trimSpace post } mp tot (splitAll 32 pre)
  | none => parseBeginFields {} mp tot (splitAll 32 ((l ++ [10]).drop 7))

/-- Field loop of `decoder.readPartHeader`: recognized keys `begin`, `end`. -/
def parsePartFields : Part → List (List Nat) → Part
  | p, [] => p
  | p, tok :: rest =>
    match splitAll 61 (trimSpace tok) with
    | k :: v :: _ =>
      if k = ascii "begin" then parsePartFields { p with Begin := goAtoi v } rest
      else if k = ascii "end" then parsePartFields { p with End := goAtoi v } rest
      else parsePartFields p rest
    | _ => parsePartFields p rest

/-- `decoder.readPartHeader` applied to the found `=ypart` line. -/
def parsePartHeader (p : Part) (l : List Nat) : Part :=
  parsePartFields p (splitAll 32 ((l ++ [10]).drop 6))

/-- Field loop of `decoder.parseTrailer`: recognized keys `size`, `pcrc32`,
`crc32` (hex values stored only on a successful parse, truncated to uint32),
and `part`, whose best-effort-parsed value must equal the established part
`Number` on pain of the ordering error.  `sc` is the decoder-level expected
session CRC `d.crc32`. -/
def parseTrailerFields : Part → Nat → List (List Nat) → Except Err (Part × Nat)
  | p, sc, [] => .ok (p, sc)
  | p, sc, tok :: rest =>
    match splitAll 61 (trimSpace tok) with
    | k :: v :: _ =>
      if k = ascii "size" then parseTrailerFields { p with Size := goAtoi v } sc rest
      else if k = ascii "pcrc32" then
        match goParseUintHex64 v with
        | some w => parseTrailerFields { p with crc32 := w % 4294967296 } sc rest
        | none => parseTrailerFields p sc rest
      else if k = ascii "crc32" then
        match goParseUintHex64 v with
        | some w => parseTrailerFields p (w % 4294967296) rest
        | none => parseTrailerFields p sc rest
      else if k = ascii "part" then
        if goAtoi v ≠ p.Number then .error .trailerOrder
        else parseTrailerFields p sc rest
      else parseTrailerFields p sc rest
    | _ => parseTrailerFields p sc rest

/-- `decoder.parseTrailer` on the CRLF-trimmed `=yend` line. -/
def parseTrailer (p : Part) (sc : Nat) (l : List Nat) : Except Err (Part × Nat) :=
  parseTrailerFields p sc (splitAll 32 l)

/-- The line-discarding search loop of `decoder.readHeader`: drop lines until
one starts with `=ybegin`; `none` models the read error (EOF) branch. -/
def readHeaderScan : List (List Nat) → Option (List Nat × List (List Nat))
  | [] => none
  | l :: rest => if isYBegin l then some (l, rest) else readHeaderScan rest

/-- The search loop of `decoder.readPartHeader` for an `=ypart` line. -/
def readPartScan : List (List Nat) → Option (List Nat × List (List Nat))
  | [] => none
  | l :: rest => if isYPart l then some (l, rest) else readPartScan rest

/-- The line loop of `decoder.readBody`: read a line, trim trailing CR/LF, on
`=yend` parse the trailer and stop, otherwise decode the line, append the
output to `Body` and to the session byte accumulator `sess`, and continue.
`inl (e, sess)` is the error return (with the session accumulator as mutated
so far, since `d.crcHash` keeps those bytes); `inr (p, sc, sess, rest)` is
the successful return after the trailer. -/
def readBodyLoop : Part → Bool → List Nat → Nat → List (List Nat) →
    (Err × List Nat) ⊕ (Part × Nat × List Nat × List (List Nat))
  | _, _, sess, _, [] => .inl (.eof, sess)
  | p, aw, sess, sc, l :: rest =>
    let t := trimCRLF l
    if isYEnd t then
      match parseTrailer p sc t with
      | .ok r => .inr (r.1, r.2, sess, rest)
      | .error e => .inl (e, sess)
    else
      let r := decodeLine aw t
      readBodyLoop { p with Body := p.Body ++ r.1 } r.2 (sess ++ r.1) sc rest

/-- `decoder.readBody`: resets `Body` to empty, resets `awaitingSpecial` to
false, starts a fresh per-part CRC accumulator, then runs the line loop. -/
def readBody (p : Part) (sess : List Nat) (sc : Nat) (s : List (List Nat)) :
    (Err × List Nat) ⊕ (Part × Nat × List Nat × List (List Nat)) :=
  readBodyLoop { p with Body := [] } false sess sc s

/-- The session state of the `decoder` struct.  `crc32exp` is `d.crc32` (the
expected whole-session CRC from a trailer); `sessionBytes` are the bytes fed
to `d.crcHash`. -/
structure DecState where
  multipart : Bool := false
  total : Int := 0
  parts : List Part := []
  crc32exp : Nat := 0
  sessionBytes : List Nat := []
deriving DecidableEq, Repr

/-- The part loop of `decoder.run`.  Each iteration: fresh `Part`, find and
parse an `=ybegin` header (EOF here ends the loop with `io.EOF`), if
multipart find and parse an `=ypart` header (EOF propagates), read the body,
append the part to the list, validate it, and loop.  Go's `for {}` only exits
by returning an error, so the result is always an `Err` paired with the final
decoder state.  The fuel argument only serves termination: each iteration
consumes at least one line, so `run` passes enough fuel for the stream. -/
def runLoop : Nat → DecState → List (List Nat) → Err × DecState
  | 0, st, _ => (.eof, st)
  | fuel + 1, st, s =>
    match readHeaderScan s with
    | none => (.eof, st)
    | some (l, s1) =>
      let h := parseBeginHeader st.multipart st.total l
      let st1 : DecState := { st with multipart := h.2.1, total := h.2.2 }
      match (if h.2.1 then
               match readPartScan s1 with
               | none => none
               | some (pl, s2) => some (parsePartHeader h.1 pl, s2)
             else some (h.1, s1)) with
      | none => (.eof, st1)
      | some (p2, s2) =>
        match readBody p2 st1.sessionBytes st1.crc32exp s2 with
        | .inl (e, sess2) => (e, { st1 with sessionBytes := sess2 })
        | .inr (p3, sc3, sess3, s3) =>
          let st2 : DecState := { st1 with crc32exp := sc3, sessionBytes := sess3,
                                           parts := st1.parts ++ [p3] }
          match p3.validate with
          | .error e => (e, st2)
          | .ok _ => runLoop fuel st2 s3

/-- `decoder.run` from the zero-valued decoder state. -/
def run (s : List (List Nat)) : Err × DecState := runLoop (s.length + 1) {} s

/-- The tail of `Decode` after `d.run()` returns: forgive `io.EOF`, fail on
any other error, fail with "no yenc parts found" on an empty part list, run
the whole-session CRC validation only when the stream was not multipart or
the number of parts equals the last part's `Number`, and return the first
part. -/
def decodeFinish (e : Err) (st : DecState) : Except Err Part :=
    if e ≠ .eof then .error e
    else
      match st.parts with
      | [] => .error .noPartsFound
      | p :: ps =>
        if st.multipart = false ∨ (((p :: ps).length : Int) = (ps.getLastD p).Number) then
          match decoderValidate st.crc32exp st.sessionBytes with
          | .error e2 => .error e2
          | .ok _ => .ok p
        else .ok p

/-- `Decode`: run the decoder over the stream and finish as above. -/
def Decode (s : List (List Nat)) : Except Err Part := decodeFinish (run s).1 (run s).2

/-- Modelled from the spec: the repository contains no encoder, so the yEnc
transform of the round-trip property is taken from the spec's words — a byte
is shifted by +42 mod 256; if the shifted byte would render as NUL, LF, CR or
the escape marker `=` it is emitted as `=` followed by the shifted byte +64
mod 256. -/
def isCritical (e : Nat) : Bool := e == 0 || e == 10 || e == 13 || e == 61

/-- Modelled from the spec: yEnc encoding of one byte (see `isCritical`). -/
def encodeByte (b : Nat) : List Nat :=
  let e := (b + 42) % 256
  if isCritical e then [61, (e + 64) % 256] else [e]

/-- Modelled from the spec: yEnc encoding of a byte sequence. -/
def encodeBody (bs : List Nat) : List Nat := (bs.map encodeByte).flatten

/-- Modelled from the spec: a well-formed single-part yEnc stream carrying
`bs` — an `=ybegin` header line, the encoded body as one line, and an
`=yend` trailer declaring the decoded size. -/
def encodeStream (bs : List Nat) : List (List Nat) :=
  [ascii "=ybegin", encodeBody bs, ascii "=yend size=" ++ natToDec bs.length]

/-! ## Supporting lemmas -/

lemma dropWhile_eq_self_of (q : Nat → Bool) (l : List Nat) (h : ∀ x ∈ l, q x = false) :
    l.dropWhile q = l := by
  cases l with
  | nil => rfl
  | cons a t => simp [List.dropWhile_cons, h a (by simp)]

lemma trimCRLF_eq_self (l : List Nat) (h : ∀ x ∈ l, x ≠ 10 ∧ x ≠ 13) : trimCRLF l = l := by
  unfold trimCRLF
  rw [dropWhile_eq_self_of, List.reverse_reverse]
  intro x hx
  have hh := h x (List.mem_reverse.mp hx)
  simp [hh.1, hh.2]

lemma trimSpace_eq_self (l : List Nat) (h : ∀ x ∈ l, isSpc x = false) : trimSpace l = l := by
  unfold trimSpace
  rw [dropWhile_eq_self_of _ _ h, dropWhile_eq_self_of, List.reverse_reverse]
  intro x hx
  exact h x (List.mem_reverse.mp hx)

lemma dropWhile_head_false (q : Nat → Bool) (l : List Nat) (a : Nat) (t : List Nat)
    (h : l.dropWhile q = a :: t) : q a = false := by
  induction l with
  | nil => simp at h
  | cons b r ih =>
    rw [List.dropWhile_cons] at h
    by_cases hb : q b
    · exact ih (by simpa [hb] using h)
    · have hba : b = a := by simpa [hb] using congrArg List.head? h
      rw [← hba]
      simpa using hb

lemma trimSpace_append_ten (l : List Nat) : trimSpace (l ++ [10]) = trimSpace l := by
  unfold trimSpace
  rw [List.dropWhile_append]
  cases hfront : l.dropWhile isSpc with
  | nil => simp [isSpc]
  | cons a t =>
    simp only [List.isEmpty_cons, List.reverse_append, List.reverse_cons, List.reverse_nil,
      List.nil_append, List.cons_append, List.dropWhile_cons]
    have h10 : isSpc 10 = true := by simp [isSpc]
    simp [h10]

lemma splitAll_ne_nil (c : Nat) (l : List Nat) : splitAll c l ≠ [] := by
  cases l with
  | nil => simp [splitAll]
  | cons b rest =>
    unfold splitAll
    cases h : splitAll c rest with
    | nil => simp
    | cons g gs =>
      by_cases hb : b = c <;> simp [hb]

lemma splitAll_not_mem (c : Nat) (l : List Nat) (h : c ∉ l) : splitAll c l = [l] := by
  induction l with
  | nil => rfl
  | cons b rest ih =>
    have hb : b ≠ c := fun hc => h (by simp [hc])
    unfold splitAll
    rw [ih (fun hc => h (by simp [hc]))]
    simp [hb]

lemma splitAll_append_sep (c : Nat) (xs ys : List Nat) (h : c ∉ xs) :
    splitAll c (xs ++ c :: ys) = xs :: splitAll c ys := by
  induction xs with
  | nil =>
    simp only [List.nil_append]
    cases hy : splitAll c ys with
    | nil => exact absurd hy (splitAll_ne_nil c ys)
    | cons g gs =>
      simp only [splitAll, hy]
      simp
  | cons x xs ih =>
    have hx : x ≠ c := fun hc => h (by simp [hc])
    have ih2 := ih (fun hc => h (by simp [hc]))
    simp only [List.cons_append, splitAll, ih2]
    simp [hx]
    rw [ih2]

lemma splitOnFirst_none (s0 : Nat) (sep : List Nat) (l : List Nat) (h : s0 ∉ l) :
    splitOnFirst (s0 :: sep) l = none := by
  induction l with
  | nil => rfl
  | cons b rest ih =>
    have hb : b ≠ s0 := fun hc => h (by simp [hc])
    unfold splitOnFirst
    have hpre : (s0 :: sep).isPrefixOf (b :: rest) = false := by
      simp [List.isPrefixOf]
      intro hc
      exact absurd hc.symm hb
    rw [hpre, ih (fun hc => h (by simp [hc]))]
    simp

lemma isPrefixOf_append_self (pre l : List Nat) : pre.isPrefixOf (pre ++ l) = true := by
  induction pre with
  | nil => simp [List.isPrefixOf]
  | cons a t ih => simp [List.isPrefixOf, ih]

lemma natToDec_low (n : Nat) (h : n < 10) : natToDec n = [n + 48] := by
  by_cases h0 : n = 0
  · simp [natToDec, h0]
  · have hd : Nat.digits 10 n = n % 10 :: Nat.digits 10 (n / 10) :=
      Nat.digits_def' (by norm_num) (by omega)
    have hq : n / 10 = 0 := by omega
    rw [natToDec, if_neg h0, hd, hq]
    simp
    omega

lemma natToDec_high (n : Nat) (h : 10 ≤ n) : natToDec n = natToDec (n / 10) ++ [n % 10 + 48] := by
  have hd : Nat.digits 10 n = n % 10 :: Nat.digits 10 (n / 10) :=
    Nat.digits_def' (by norm_num) (by omega)
  have hq : n / 10 ≠ 0 := by omega
  rw [natToDec, if_neg (by omega), hd, natToDec, if_neg hq]
  simp

lemma natToDec_mem (n : Nat) (b : Nat) (hb : b ∈ natToDec n) : 48 ≤ b ∧ b ≤ 57 := by
  by_cases h0 : n = 0
  · subst h0
    simp [natToDec] at hb
    omega
  · rw [natToDec, if_neg h0] at hb
    simp only [List.mem_map, List.mem_reverse] at hb
    obtain ⟨d, hd, rfl⟩ := hb
    have := Nat.digits_lt_base (by norm_num) hd
    omega

lemma natToDec_ne_nil (n : Nat) : natToDec n ≠ [] := by
  by_cases h10 : n < 10
  · rw [natToDec_low n h10]; simp
  · rw [natToDec_high n (by omega)]; simp

lemma parseDecCore_append (acc : Nat) (xs ys : List Nat) :
    parseDecCore acc (xs ++ ys) =
      match parseDecCore acc xs with
      | some m => parseDecCore m ys
      | none => none := by
  induction xs generalizing acc with
  | nil => simp [parseDecCore]
  | cons b xs ih =>
    by_cases hb : 48 ≤ b ∧ b ≤ 57
    · simp only [List.cons_append, parseDecCore, if_pos hb]
      exact ih _
    · simp only [List.cons_append, parseDecCore, if_neg hb]

lemma parseDecCore_natToDec (n : Nat) : parseDecCore 0 (natToDec n) = some n := by
  induction n using Nat.strong_induction_on with
  | _ n ih =>
    by_cases h10 : n < 10
    · rw [natToDec_low n h10]
      simp only [parseDecCore]
      rw [if_pos (by omega)]
      congr 1
      omega
    · rw [natToDec_high n (by omega), parseDecCore_append, ih (n / 10) (by omega)]
      simp only [parseDecCore]
      rw [if_pos (by omega)]
      congr 1
      omega

lemma parseDecDigits_natToDec (n : Nat) : parseDecDigits (natToDec n) = some n := by
  cases hh : natToDec n with
  | nil => exact absurd hh (natToDec_ne_nil n)
  | cons b rest =>
    have h1 : parseDecDigits (b :: rest) = parseDecCore 0 (b :: rest) := rfl
    rw [h1, ← hh]
    exact parseDecCore_natToDec n

lemma goAtoi_natToDec (n : Nat) (h : n < 9223372036854775808) :
    goAtoi (natToDec n) = (n : Int) := by
  cases hh : natToDec n with
  | nil => exact absurd hh (natToDec_ne_nil n)
  | cons b rest =>
    have hb := natToDec_mem n b (by rw [hh]; simp)
    have hd : parseDecDigits (natToDec n) = some n := parseDecDigits_natToDec n
    rw [hh] at hd
    have hp : parseInt10 (b :: rest) = some (n : Int) := by
      simp only [parseInt10]
      rw [if_neg (by omega), if_neg (by omega), hd]
      simp
    unfold goAtoi
    rw [hp]
    simp only [clampInt64]
    rw [if_neg (by omega), if_neg (by omega)]

lemma encodeBody_cons (b : Nat) (bs : List Nat) :
    encodeBody (b :: bs) = encodeByte b ++ encodeBody bs := by
  simp [encodeBody]

lemma mem_encodeBody (bs : List Nat) (x : Nat) (hx : x ∈ encodeBody bs) : x ≠ 10 ∧ x ≠ 13 := by
  induction bs with
  | nil => simp [encodeBody] at hx
  | cons b bs ih =>
    rw [encodeBody_cons] at hx
    rcases List.mem_append.mp hx with h | h
    · rw [encodeByte] at h
      by_cases hc : isCritical ((b + 42) % 256)
      · rw [if_pos hc] at h
        have hcrit := hc
        simp only [isCritical, Bool.or_eq_true, beq_iff_eq] at hcrit
        simp only [List.mem_cons, List.mem_singleton, List.not_mem_nil, or_false] at h
        rcases h with h1 | h1 <;> rw [h1] <;> omega
      · rw [if_neg hc] at h
        simp only [isCritical, Bool.or_eq_true, beq_iff_eq] at hc
        simp only [List.mem_singleton] at h
        rw [h]
        constructor <;> omega
    · exact ih h

lemma trimCRLF_encodeBody (bs : List Nat) : trimCRLF (encodeBody bs) = encodeBody bs :=
  trimCRLF_eq_self _ (mem_encodeBody bs)

lemma decodeLine_encodeBody (bs : List Nat) (h : ∀ b ∈ bs, b < 256) :
    decodeLine false (encodeBody bs) = (bs, false) := by
  induction bs with
  | nil => rfl
  | cons b bs ih =>
    have hb : b < 256 := h b (by simp)
    have ihr : decodeLine false (encodeBody bs) = (bs, false) :=
      ih (fun x hx => h x (by simp [hx]))
    rw [encodeBody_cons, encodeByte]
    by_cases hc : isCritical ((b + 42) % 256)
    · rw [if_pos hc]
      simp only [isCritical, Bool.or_eq_true, beq_iff_eq] at hc
      simp only [List.cons_append, List.nil_append]
      have step1 : decodeLine false (61 :: ((b + 42) % 256 + 64) % 256 :: encodeBody bs) =
          decodeLine true ((((b + 42) % 256 + 64) % 256) :: encodeBody bs) := by
        simp [decodeLine]
      have step2 : decodeLine true ((((b + 42) % 256 + 64) % 256) :: encodeBody bs) =
          (((((b + 42) % 256 + 64) % 256 + 214) % 256 + 192) % 256 ::
              (decodeLine false (encodeBody bs)).1,
            (decodeLine false (encodeBody bs)).2) := rfl
      rw [step1, step2, ihr]
      have hv : ((((b + 42) % 256 + 64) % 256 + 214) % 256 + 192) % 256 = b := by omega
      rw [hv]
    · rw [if_neg hc]
      have he : (b + 42) % 256 ≠ 61 := by
        simp only [isCritical, Bool.or_eq_true, beq_iff_eq] at hc
        omega
      simp only [List.singleton_append]
      have step : decodeLine false (((b + 42) % 256) :: encodeBody bs) =
          ((((b + 42) % 256 + 214) % 256) :: (decodeLine false (encodeBody bs)).1,
            (decodeLine false (encodeBody bs)).2) := by
        simp [decodeLine, he]
      rw [step, ihr]
      have hv : ((b + 42) % 256 + 214) % 256 = b := by omega
      rw [hv]

lemma isYEnd_encodeBody (bs : List Nat) : isYEnd (encodeBody bs) = false := by
  cases bs with
  | nil => rfl
  | cons b bs =>
    rw [encodeBody_cons, encodeByte]
    have hasc : ascii "=yend" = [61, 121, 101, 110, 100] := by decide
    by_cases hc : isCritical ((b + 42) % 256)
    · rw [if_pos hc]
      have hy : ((b + 42) % 256 + 64) % 256 ≠ 121 := by
        simp only [isCritical, Bool.or_eq_true, beq_iff_eq] at hc
        omega
      simp only [isCritical, Bool.or_eq_true, beq_iff_eq] at hc
      simp only [List.cons_append, List.nil_append, isYEnd, hasc, List.isPrefixOf]
      simp
      intro hcontra
      exfalso
      omega
    · rw [if_neg hc]
      simp only [isCritical, Bool.or_eq_true, beq_iff_eq] at hc
      simp only [List.singleton_append, isYEnd, hasc, List.isPrefixOf]
      simp
      intro hcontra
      exfalso
      omega

lemma decodeLine_append (A B : List Nat) (aw : Bool) :
    decodeLine aw (A ++ B) =
      ((decodeLine aw A).1 ++ (decodeLine (decodeLine aw A).2 B).1,
        (decodeLine (decodeLine aw A).2 B).2) := by
  induction A generalizing aw with
  | nil => simp [decodeLine]
  | cons a A ih =>
    cases aw with
    | true =>
      simp only [List.cons_append, decodeLine, List.append_eq]
      rw [ih false]
    | false =>
      by_cases ha : a = 61
      · subst ha
        simp only [List.cons_append, decodeLine, if_pos rfl]
        exact ih true
      · simp only [List.cons_append, decodeLine, if_neg ha, List.append_eq]
        rw [ih false]

/-- A `key=value` token splits on `=` into exactly `[key, value]` when neither
side contains `=`. -/
lemma splitAll61_kv (key v : List Nat) (hk : (61 : Nat) ∉ key) (hv : (61 : Nat) ∉ v) :
    splitAll 61 (key ++ 61 :: v) = [key, v] := by
  rw [splitAll_append_sep 61 key v hk, splitAll_not_mem 61 v hv]

lemma trimS_digits_token (pre : List Nat) (hpre : ∀ x ∈ pre, isSpc x = false) (n : Nat) :
    trimSpace (pre ++ natToDec n) = pre ++ natToDec n := by
  apply trimSpace_eq_self
  intro x hx
  rcases List.mem_append.mp hx with hx | hx
  · exact hpre x hx
  · have := natToDec_mem n x hx
    simp [isSpc]
    omega

lemma not61_natToDec (n : Nat) : (61 : Nat) ∉ natToDec n := by
  intro hx
  have := natToDec_mem n 61 hx
  omega

lemma isYEnd_trailer (n : Nat) : isYEnd (ascii "=yend size=" ++ natToDec n) = true := by
  rw [show ascii "=yend size=" = ascii "=yend" ++ ascii " size=" from by decide,
    List.append_assoc, isYEnd]
  exact isPrefixOf_append_self _ _

lemma trimCRLF_trailer (n : Nat) : trimCRLF (ascii "=yend size=" ++ natToDec n) =
    ascii "=yend size=" ++ natToDec n := by
  apply trimCRLF_eq_self
  intro x hx
  rcases List.mem_append.mp hx with hx | hx
  · revert hx
    have : ∀ x ∈ ascii "=yend size=", x ≠ 10 ∧ x ≠ 13 := by decide
    exact this x
  · have := natToDec_mem n x hx
    omega

lemma splitAll32_trailer (n : Nat) : splitAll 32 (ascii "=yend size=" ++ natToDec n) =
    [ascii "=yend", ascii "size=" ++ natToDec n] := by
  rw [show ascii "=yend size=" = ascii "=yend" ++ 32 :: ascii "size=" from by decide,
    List.append_assoc, List.cons_append]
  rw [splitAll_append_sep 32 _ _ (by decide), splitAll_not_mem]
  intro hx
  rcases List.mem_append.mp hx with hx | hx
  · revert hx
    decide
  · have := natToDec_mem n 32 hx
    omega

lemma parseTrailer_size_only (p : Part) (sc : Nat) (n : Nat) (hn : n < 9223372036854775808) :
    parseTrailer p sc (ascii "=yend size=" ++ natToDec n) =
      .ok ({ p with Size := (n : Int) }, sc) := by
  unfold parseTrailer
  rw [splitAll32_trailer n]
  have step1 : parseTrailerFields p sc [ascii "=yend", ascii "size=" ++ natToDec n] =
      parseTrailerFields p sc [ascii "size=" ++ natToDec n] := rfl
  rw [step1]
  simp only [parseTrailerFields]
  rw [show ascii "size=" ++ natToDec n = ascii "size" ++ 61 :: natToDec n from by
      rw [show ascii "size=" = ascii "size" ++ [61] from by decide, List.append_assoc]
      rfl]
  rw [show trimSpace (ascii "size" ++ 61 :: natToDec n) = ascii "size" ++ 61 :: natToDec n from by
      apply trimSpace_eq_self
      intro x hx
      rcases List.mem_append.mp hx with hx | hx
      · have hall : ∀ y ∈ ascii "size", isSpc y = false := by decide
        exact hall x hx
      · rcases List.mem_cons.mp hx with rfl | hx
        · decide
        · have := natToDec_mem n x hx
          simp [isSpc]
          omega]
  rw [splitAll61_kv (ascii "size") (natToDec n) (by decide) (not61_natToDec n)]
  show parseTrailerFields { p with Size := goAtoi (natToDec n) } sc [] =
    .ok ({ p with Size := (n : Int) }, sc)
  rw [goAtoi_natToDec n hn]
  rfl

lemma readHeaderScan_none (s : List (List Nat)) (h : ∀ l ∈ s, isYBegin l = false) :
    readHeaderScan s = none := by
  induction s with
  | nil => rfl
  | cons l rest ih =>
    simp only [readHeaderScan]
    rw [h l (by simp)]
    simp
    exact ih (fun x hx => h x (by simp [hx]))

/-! ## Claim theorems -/

/-- C3: the line decoder is the claimed byte-for-byte state machine: with the
awaiting-escape flag set it emits `((b - 42) mod 256 - 64) mod 256` and clears
the flag; with the flag clear, an `=` byte sets the flag and emits nothing,
and any other byte emits `(b - 42) mod 256`.  The last two conjuncts identify
the embedding's wrap-around byte arithmetic with the claim's formulas. -/
theorem decode_line_byte_cases (b : Nat) (rest : List Nat) :
    (decodeLine true (b :: rest) =
        ((((b + 214) % 256 + 192) % 256) :: (decodeLine false rest).1,
          (decodeLine false rest).2))
    ∧ (b = 61 → decodeLine false (b :: rest) = decodeLine true rest)
    ∧ (b ≠ 61 → decodeLine false (b :: rest) =
        (((b + 214) % 256) :: (decodeLine false rest).1, (decodeLine false rest).2))
    ∧ (((((b + 214) % 256 + 192) % 256 : Nat) : Int) = (((b : Int) - 42) % 256 - 64) % 256)
    ∧ ((((b + 214) % 256 : Nat) : Int) = ((b : Int) - 42) % 256) := by
  refine ⟨rfl, ?_, ?_, by omega, by omega⟩
  · intro h
    simp [decodeLine, h]
  · intro h
    simp [decodeLine, h]

theorem decode_line_byte_cases_witness :
    decodeLine false [61, 200] = decodeLine true [200] ∧ decodeLine false [100] = ([58], false) := by
  constructor
  · exact (decode_line_byte_cases 61 [200]).2.1 rfl
  · exact ((decode_line_byte_cases 100 []).2.2.1 (by decide)).trans (by decide)

/-- C4: the awaiting-escape state is carried across line boundaries within a
body (an `=` ending one line escapes the first byte of the next line exactly
as a mid-line escape does), `readBody` resets the flag to false at the start
of a part's body, and each non-trailer body line is consumed by exactly one
`decodeLine` step threading the flag. -/
theorem escape_across_line_boundary :
    (∀ (xs : List Nat) (c : Nat) (ys : List Nat),
        (decodeLines false [xs ++ [61], c :: ys]).1 =
          (decodeLines false [xs ++ 61 :: c :: ys]).1)
    ∧ (∀ (p : Part) (sess : List Nat) (sc : Nat) (s : List (List Nat)),
        readBody p sess sc s = readBodyLoop { p with Body := [] } false sess sc s)
    ∧ (∀ (p : Part) (aw : Bool) (sess : List Nat) (sc : Nat) (l : List Nat)
        (rest : List (List Nat)), isYEnd (trimCRLF l) = false →
        readBodyLoop p aw sess sc (l :: rest) =
          readBodyLoop { p with Body := p.Body ++ (decodeLine aw (trimCRLF l)).1 }
            (decodeLine aw (trimCRLF l)).2 (sess ++ (decodeLine aw (trimCRLF l)).1) sc rest) := by
  refine ⟨?_, fun _ _ _ _ => rfl, ?_⟩
  · intro xs c ys
    rw [show xs ++ 61 :: c :: ys = (xs ++ [61]) ++ (c :: ys) from by simp]
    simp only [decodeLines]
    rw [decodeLine_append (xs ++ [61]) (c :: ys) false]
    simp
  · intro p aw sess sc l rest h
    simp [readBodyLoop, h]

theorem escape_across_line_boundary_witness :
    readBodyLoop {} false [] 0 [[43]] =
      readBodyLoop { ({} : Part) with Body := ({} : Part).Body ++ (decodeLine false (trimCRLF [43])).1 }
        (decodeLine false (trimCRLF [43])).2 ([] ++ (decodeLine false (trimCRLF [43])).1) 0 [] :=
  escape_across_line_boundary.2.2 {} false [] 0 [43] [] (by decide)

/-- C6 counterexample: a trailer declares `pcrc32=0`; the hex parse succeeds
with value 0, the body's actual CRC-32 is nonzero (so the declared per-part
CRC differs from the CRC-32 of the body), yet validation passes — refuting
the claimed "if and only if". -/
theorem declared_zero_crc_accepted :
    parseTrailer ({ Size := 1, Body := [0] } : Part) 0 (ascii "=yend pcrc32=0") =
      .ok ({ Size := 1, Body := [0], crc32 := 0 }, 0)
    ∧ parseHexDigits (ascii "0") = some 0
    ∧ crc32IEEE [0] ≠ 0
    ∧ Part.validate { Size := 1, Body := [0], crc32 := 0 } = .ok () :=
  ⟨rfl, rfl, by decide, rfl⟩

/-- C6 (amended): validation succeeds iff the body length equals the declared
`Size` and any stored per-part CRC that is nonzero equals the CRC-32 of the
body (a declared CRC that parses to 0 is indistinguishable from "absent" and
is never checked); hence every validated part satisfies len(Body) == Size. -/
theorem validate_ok_iff (p : Part) :
    (p.validate = .ok () ↔
      ((p.Body.length : Int) = p.Size ∧ (p.crc32 = 0 ∨ crc32IEEE p.Body = p.crc32)))
    ∧ (p.validate = .ok () → (p.Body.length : Int) = p.Size) := by
  have hiff : p.validate = .ok () ↔
      ((p.Body.length : Int) = p.Size ∧ (p.crc32 = 0 ∨ crc32IEEE p.Body = p.crc32)) := by
    unfold Part.validate
    split_ifs with h1 h2
    · simp [h1]
    · simp
      intro _
      omega
    · simp
      constructor
      · omega
      · rcases Decidable.not_and_iff_or_not.mp h2 with h | h
        · left
          omega
        · right
          omega
  exact ⟨hiff, fun h => (hiff.mp h).1⟩

theorem validate_ok_iff_witness :
    ((({} : Part).Body.length : Int)) = ({} : Part).Size :=
  (validate_ok_iff {}).2 rfl

/-- C10: a declared CRC whose parsed value is 0 disables the check entirely —
part validation with a zero stored CRC only checks the length, session
validation with a zero expected CRC always passes, and a concrete part whose
actual CRC-32 is nonzero passes validation against a declared `pcrc32=00000000`. -/
theorem zero_declared_crc_skipped :
    (∀ p : Part, p.crc32 = 0 →
        p.validate = (if (p.Body.length : Int) = p.Size then .ok () else .error .sizeMismatch))
    ∧ (∀ sess : List Nat, decoderValidate 0 sess = .ok ())
    ∧ (parseTrailer ({ Size := 1, Body := [1] } : Part) 0 (ascii "=yend size=1 pcrc32=00000000") =
        .ok ({ Size := 1, Body := [1], crc32 := 0 }, 0)
      ∧ crc32IEEE [1] ≠ 0
      ∧ Part.validate { Size := 1, Body := [1], crc32 := 0 } = .ok ()) := by
  refine ⟨?_, ?_, rfl, by decide, rfl⟩
  · intro p h
    unfold Part.validate
    rw [h]
    by_cases hlen : (p.Body.length : Int) = p.Size
    · simp [hlen]
    · simp [hlen]
  · intro sess
    unfold decoderValidate
    simp

theorem zero_declared_crc_skipped_witness :
    Part.validate {} =
      (if ((({} : Part).Body.length : Int)) = ({} : Part).Size then Except.ok ()
        else Except.error Err.sizeMismatch) :=
  zero_declared_crc_skipped.1 {} rfl

/-- C9 counterexample: an unparsable trailer `part=` value best-effort parses
to 0, which the ordering check then compares against the established part
number — surfacing a hard error when that number is nonzero, contrary to the
claim that unparsable numeric tokens never surface an error. -/
theorem unparsable_trailer_part_errors :
    parseTrailer ({ Number := 1 } : Part) 0 (ascii "=yend part=zz") = .error .trailerOrder
    ∧ parseInt10 (ascii "zz") = none :=
  ⟨rfl, rfl⟩

/-- C8: when no line of the input starts with `=ybegin`, no part is ever
decoded and Decode fails with the "no yenc parts found" error instead of
returning a zero-valued result. -/
theorem no_ybegin_no_parts (s : List (List Nat)) (h : ∀ l ∈ s, isYBegin l = false) :
    Decode s = .error .noPartsFound := by
  have hscan : readHeaderScan s = none := readHeaderScan_none s h
  unfold Decode run
  simp only [runLoop, hscan]
  rfl

theorem no_ybegin_no_parts_witness :
    Decode [ascii "garbage", ascii "=yenc nope"] = .error .noPartsFound :=
  no_ybegin_no_parts _ (by decide)

/-- C2: evaluation of the decoder at the failing input.  A stream holding one
fully valid part followed by a second part whose body is truncated before its
`=yend` does NOT fail: `readBody` returns `io.EOF`, `decoder.run` propagates
it, and `Decode` forgives `io.EOF`, so the first part is returned as success
and the truncated second part is silently discarded — contradicting the
claim (and spec sections 7 and 8, which require failure here). -/
theorem truncated_second_part_returns_first :
    Decode [ascii "=ybegin part=1 total=2 line=128 size=1 name=a",
        ascii "=ypart begin=1 end=1", ascii "+", ascii "=yend size=1 part=1",
        ascii "=ybegin part=2 total=2 line=128 size=1 name=a",
        ascii "=ypart begin=2 end=2", ascii "+"] =
      .ok { Number := 1, hsize := 1, Size := 1, Begin := 1, End := 1, Name := ascii "a",
            cols := 128, crc32 := 0, Body := [1] } := rfl

/-- C5: a trailer `part=` token whose parsed value differs from the part
`Number` established by the headers makes trailer parsing return the hard
ordering error (shown for every part state, session CRC state, and
well-formed token value — ASCII bytes, so the byte-level TrimSpace model is
exact w.r.t. Go's rune-level trim), and Decode aborts a concrete
two-part-style stream with exactly that error. -/
theorem trailer_part_mismatch (p : Part) (sc : Nat) (v : List Nat)
    (hv : ∀ b ∈ v, b < 128 ∧ isSpc b = false ∧ b ≠ 61)
    (hne : goAtoi v ≠ p.Number) :
    parseTrailer p sc (ascii "=yend part=" ++ v) = .error .trailerOrder
    ∧ Decode [ascii "=ybegin part=1 total=2 line=128 size=1 name=a",
        ascii "=ypart begin=1 end=1", ascii "+", ascii "=yend size=1 part=2"] =
        .error .trailerOrder := by
  constructor
  · unfold parseTrailer
    have hsp : splitAll 32 (ascii "=yend part=" ++ v) = [ascii "=yend", ascii "part=" ++ v] := by
      rw [show ascii "=yend part=" = ascii "=yend" ++ 32 :: ascii "part=" from by decide,
        List.append_assoc, List.cons_append]
      rw [splitAll_append_sep 32 _ _ (by decide), splitAll_not_mem]
      intro hx
      rcases List.mem_append.mp hx with hx | hx
      · revert hx
        decide
      · exact absurd (hv 32 hx).2.1 (by decide)
    rw [hsp]
    have step1 : parseTrailerFields p sc [ascii "=yend", ascii "part=" ++ v] =
        parseTrailerFields p sc [ascii "part=" ++ v] := rfl
    rw [step1]
    simp only [parseTrailerFields]
    rw [show ascii "part=" ++ v = ascii "part" ++ 61 :: v from by
        rw [show ascii "part=" = ascii "part" ++ [61] from by decide, List.append_assoc]
        rfl]
    rw [show trimSpace (ascii "part" ++ 61 :: v) = ascii "part" ++ 61 :: v from
        trimSpace_eq_self _ (by
          intro x hx
          rcases List.mem_append.mp hx with hx | hx
          · have hall : ∀ y ∈ ascii "part", isSpc y = false := by decide
            exact hall x hx
          · rcases List.mem_cons.mp hx with rfl | hx
            · decide
            · exact (hv x hx).2.1)]
    rw [splitAll61_kv (ascii "part") v (by decide) (fun hx => (hv 61 hx).2.2 rfl)]
    show (if goAtoi v ≠ p.Number then Except.error Err.trailerOrder
      else parseTrailerFields p sc []) = Except.error Err.trailerOrder
    rw [if_pos hne]
  · rfl

theorem trailer_part_mismatch_witness :
    parseTrailer ({ Number := 1 } : Part) 0 (ascii "=yend part=" ++ ascii "7") =
      .error .trailerOrder :=
  (trailer_part_mismatch { Number := 1 } 0 (ascii "7") (by decide) (by decide)).1

/-- C7: with parts decoded (and run ending in `io.EOF`), `Decode`'s
whole-session CRC validation fails exactly when the gate holds — the stream
was not multipart, or the number of decoded parts equals the last part's
`Number` — and a nonzero expected session CRC mismatches; the declared
`total` field never influences the result; and `Decode` is exactly `run`
followed by this finishing step. -/
theorem session_crc_gate (st : DecState) (p : Part) (ps : List Part)
    (h : st.parts = p :: ps) :
    (decodeFinish .eof st = .error .sessionCrcMismatch ↔
      ((st.multipart = false ∨ (((p :: ps).length : Int) = (ps.getLastD p).Number))
        ∧ st.crc32exp > 0 ∧ crc32IEEE st.sessionBytes ≠ st.crc32exp))
    ∧ (∀ t : Int, decodeFinish .eof { st with total := t } = decodeFinish .eof st)
    ∧ (∀ s : List (List Nat), Decode s = decodeFinish (run s).1 (run s).2) := by
  refine ⟨?_, ?_, fun _ => rfl⟩
  · have hL : decodeFinish .eof st =
        (if st.multipart = false ∨ (((p :: ps).length : Int) = (ps.getLastD p).Number) then
          (match decoderValidate st.crc32exp st.sessionBytes with
            | .error e2 => .error e2
            | .ok _ => .ok p)
        else .ok p) := by
      unfold decodeFinish
      rw [if_neg (by simp), h]
    rw [hL]
    by_cases hgate : st.multipart = false ∨ (((p :: ps).length : Int) = (ps.getLastD p).Number)
    · rw [if_pos hgate]
      by_cases hcrc : st.crc32exp > 0 ∧ crc32IEEE st.sessionBytes ≠ st.crc32exp
      · rw [show decoderValidate st.crc32exp st.sessionBytes = .error .sessionCrcMismatch from by
          unfold decoderValidate
          rw [if_pos hcrc]]
        exact iff_of_true rfl ⟨hgate, hcrc⟩
      · rw [show decoderValidate st.crc32exp st.sessionBytes = .ok () from by
          unfold decoderValidate
          rw [if_neg hcrc]]
        exact iff_of_false (by simp) (fun hr => hcrc hr.2)
    · rw [if_neg hgate]
      exact iff_of_false (by simp) (fun hr => hgate hr.1)
  · intro t
    cases st
    rfl

lemma trimSpace_kv (k0 v : List Nat) (hk0 : ∀ y ∈ k0, isSpc y = false)
    (hv : ∀ b ∈ v, isSpc b = false) : trimSpace (k0 ++ 61 :: v) = k0 ++ 61 :: v := by
  apply trimSpace_eq_self
  intro x hx
  rcases List.mem_append.mp hx with hx | hx
  · exact hk0 x hx
  · rcases List.mem_cons.mp hx with rfl | hx
    · decide
    · exact hv x hx

lemma splitAll32_two (m t : List Nat) (hm : (32 : Nat) ∉ m) (ht : (32 : Nat) ∉ t) :
    splitAll 32 (m ++ 32 :: t) = [m, t] := by
  rw [splitAll_append_sep 32 m t hm, splitAll_not_mem 32 t ht]

lemma splitAll32_leading (t : List Nat) (ht : (32 : Nat) ∉ t) :
    splitAll 32 (32 :: t) = [[], t] := by
  have := splitAll_append_sep 32 [] t (by simp)
  simpa [splitAll_not_mem 32 t ht] using this

/-- C9 (amended): a recognized numeric token whose value fails to parse is
defaulted to zero without surfacing an error — the `=ybegin` fields, the
`=ypart` fields and the trailer `size`/`pcrc32`/`crc32` fields (for the CRC
fields nothing is stored, so the check is skipped) — except the trailer
`part=` token: its failed parse yields 0, which the ordering check then
compares against the established part `Number`, producing the hard ordering
error whenever that `Number` is nonzero.  The token value ranges over ASCII
bytes, so the byte-level TrimSpace model is exact w.r.t. Go's rune-level
trim. -/
theorem malformed_numeric_defaults (v : List Nat) (mp : Bool) (tot : Int) (p : Part) (sc : Nat)
    (hv : ∀ b ∈ v, b < 128 ∧ isSpc b = false ∧ b ≠ 61 ∧ b ≠ 110)
    (hpv : parseInt10 v = none) (hxv : parseHexDigits v = none) :
    goAtoi v = 0
    ∧ parseBeginHeader mp tot (ascii "=ybegin size=" ++ v) = ({}, mp, tot)
    ∧ parsePartHeader p (ascii "=ypart begin=" ++ v) = { p with Begin := 0 }
    ∧ parseTrailer p sc (ascii "=yend pcrc32=" ++ v) = .ok (p, sc)
    ∧ (p.Number = 0 → parseTrailer p sc (ascii "=yend part=" ++ v) = .ok (p, sc))
    ∧ (p.Number ≠ 0 → parseTrailer p sc (ascii "=yend part=" ++ v) = .error .trailerOrder) := by
  have hAtoi : goAtoi v = 0 := by
    unfold goAtoi
    rw [hpv]
    rfl
  have hv32 : (32 : Nat) ∉ v := by
    intro hx
    exact absurd (hv 32 hx).2.1 (by decide)
  have hv61 : (61 : Nat) ∉ v := fun hx => (hv 61 hx).2.2.1 rfl
  have hvsp : ∀ b ∈ v, isSpc b = false := fun b hb => (hv b hb).2.1
  -- the trailer with a `part=` token, shared by the last two conjuncts
  have hpart : parseTrailer p sc (ascii "=yend part=" ++ v) =
      (if (0 : Int) ≠ p.Number then .error .trailerOrder
        else .ok (p, sc)) := by
    unfold parseTrailer
    rw [show ascii "=yend part=" ++ v = ascii "=yend" ++ 32 :: (ascii "part" ++ 61 :: v) from by
        rw [show ascii "=yend part=" = (ascii "=yend" ++ 32 :: ascii "part") ++ [61] from by decide,
          List.append_assoc, List.append_assoc]
        rfl]
    rw [splitAll32_two _ _ (by decide) (by
        intro hx
        rcases List.mem_append.mp hx with hx | hx
        · revert hx
          decide
        · rcases List.mem_cons.mp hx with h32 | hx
          · exact absurd h32 (by decide)
          · exact absurd (hv 32 hx).2.1 (by decide))]
    have step1 : parseTrailerFields p sc [ascii "=yend", ascii "part" ++ 61 :: v] =
        parseTrailerFields p sc [ascii "part" ++ 61 :: v] := rfl
    rw [step1]
    simp only [parseTrailerFields]
    rw [trimSpace_kv _ _ (by decide) hvsp, splitAll61_kv (ascii "part") v (by decide) hv61]
    show (if goAtoi v ≠ p.Number then Except.error Err.trailerOrder
      else parseTrailerFields p sc []) = _
    rw [hAtoi]
    rfl
  refine ⟨hAtoi, ?_, ?_, ?_, ?_, ?_⟩
  · -- begin header
    unfold parseBeginHeader
    have hdrop : ((ascii "=ybegin size=" ++ v) ++ [10]).drop 7 =
        32 :: (ascii "size" ++ 61 :: (v ++ [10])) := by
      rw [List.append_assoc]
      rfl
    rw [hdrop]
    rw [show splitOnFirst (ascii "name=") (32 :: (ascii "size" ++ 61 :: (v ++ [10]))) = none from by
        rw [show ascii "name=" = 110 :: ascii "ame=" from by decide]
        apply splitOnFirst_none
        intro hx
        rcases List.mem_cons.mp hx with h0 | hx
        · exact absurd h0 (by decide)
        · rcases List.mem_append.mp hx with hx | hx
          · revert hx
            decide
          · rcases List.mem_cons.mp hx with h0 | hx
            · exact absurd h0 (by decide)
            · rcases List.mem_append.mp hx with hx | hx
              · exact (hv 110 hx).2.2.2 rfl
              · simp at hx]
    show parseBeginFields {} mp tot (splitAll 32 (32 :: (ascii "size" ++ 61 :: (v ++ [10])))) =
      ({}, mp, tot)
    rw [splitAll32_leading _ (by
        intro hx
        rcases List.mem_append.mp hx with hx | hx
        · revert hx
          decide
        · rcases List.mem_cons.mp hx with h32 | hx
          · exact absurd h32 (by decide)
          · rcases List.mem_append.mp hx with hx | hx
            · exact hv32 hx
            · simp at hx)]
    have step1 : parseBeginFields {} mp tot ([] :: [ascii "size" ++ 61 :: (v ++ [10])]) =
        parseBeginFields {} mp tot [ascii "size" ++ 61 :: (v ++ [10])] := rfl
    rw [step1]
    simp only [parseBeginFields]
    rw [show ascii "size" ++ 61 :: (v ++ [10]) = (ascii "size" ++ 61 :: v) ++ [10] from by
        rw [List.append_assoc]
        rfl]
    rw [trimSpace_append_ten, trimSpace_kv _ _ (by decide) hvsp,
      splitAll61_kv (ascii "size") v (by decide) hv61]
    show parseBeginFields { hsize := goAtoi v } mp tot [] = _
    rw [hAtoi]
    rfl
  · -- part header
    unfold parsePartHeader
    have hdrop : ((ascii "=ypart begin=" ++ v) ++ [10]).drop 6 =
        32 :: (ascii "begin" ++ 61 :: (v ++ [10])) := by
      rw [List.append_assoc]
      rfl
    rw [hdrop]
    rw [splitAll32_leading _ (by
        intro hx
        rcases List.mem_append.mp hx with hx | hx
        · revert hx
          decide
        · rcases List.mem_cons.mp hx with h32 | hx
          · exact absurd h32 (by decide)
          · rcases List.mem_append.mp hx with hx | hx
            · exact hv32 hx
            · simp at hx)]
    have step1 : parsePartFields p ([] :: [ascii "begin" ++ 61 :: (v ++ [10])]) =
        parsePartFields p [ascii "begin" ++ 61 :: (v ++ [10])] := rfl
    rw [step1]
    simp only [parsePartFields]
    rw [show ascii "begin" ++ 61 :: (v ++ [10]) = (ascii "begin" ++ 61 :: v) ++ [10] from by
        rw [List.append_assoc]
        rfl]
    rw [trimSpace_append_ten, trimSpace_kv _ _ (by decide) hvsp,
      splitAll61_kv (ascii "begin") v (by decide) hv61]
    show parsePartFields { p with Begin := goAtoi v } [] = _
    rw [hAtoi]
    rfl
  · -- trailer pcrc32
    unfold parseTrailer
    rw [show ascii "=yend pcrc32=" ++ v = ascii "=yend" ++ 32 :: (ascii "pcrc32" ++ 61 :: v) from by
        rw [show ascii "=yend pcrc32=" = (ascii "=yend" ++ 32 :: ascii "pcrc32") ++ [61] from by
            decide]
        rw [List.append_assoc, List.append_assoc]
        rfl]
    rw [splitAll32_two _ _ (by decide) (by
        intro hx
        rcases List.mem_append.mp hx with hx | hx
        · revert hx
          decide
        · rcases List.mem_cons.mp hx with h32 | hx
          · exact absurd h32 (by decide)
          · exact absurd (hv 32 hx).2.1 (by decide))]
    have step1 : parseTrailerFields p sc [ascii "=yend", ascii "pcrc32" ++ 61 :: v] =
        parseTrailerFields p sc [ascii "pcrc32" ++ 61 :: v] := rfl
    rw [step1]
    simp only [parseTrailerFields]
    rw [trimSpace_kv _ _ (by decide) hvsp, splitAll61_kv (ascii "pcrc32") v (by decide) hv61]
    show (match goParseUintHex64 v with
      | some w => parseTrailerFields { p with crc32 := w % 4294967296 } sc []
      | none => parseTrailerFields p sc []) = _
    rw [show goParseUintHex64 v = none from by
        unfold goParseUintHex64
        rw [hxv]
        rfl]
    rfl
  · intro h0
    rw [hpart, if_neg (by omega)]
  · intro h0
    rw [hpart, if_pos (by omega)]

theorem malformed_numeric_defaults_witness :
    goAtoi (ascii "zz") = 0 :=
  (malformed_numeric_defaults (ascii "zz") false 0 {} 0 (by decide) rfl rfl).1

theorem session_crc_gate_witness :
    decodeFinish .eof ({ parts := [{}], crc32exp := 1, sessionBytes := [] } : DecState) =
      .error .sessionCrcMismatch :=
  (session_crc_gate { parts := [{}], crc32exp := 1, sessionBytes := [] } {} [] rfl).1.mpr
    ⟨Or.inl rfl, by decide, by decide⟩

/-- C1: round-trip.  Encoding any byte sequence (all byte values 0-255,
including runs of the critical escaped values) with the spec's yEnc transform
into a well-formed single-part stream and decoding it with this engine yields
a Part whose Body is exactly the original bytes (and whose Size is their
count).  The length bound only keeps the declared size inside int64, where
Go's `strconv` parses it exactly. -/
theorem yenc_roundtrip (bs : List Nat) (hb : ∀ b ∈ bs, b < 256)
    (hlen : bs.length < 9223372036854775808) :
    Decode (encodeStream bs) = .ok { Size := (bs.length : Int), Body := bs } := by
  have hbody : readBody ({} : Part) [] 0
      [encodeBody bs, ascii "=yend size=" ++ natToDec bs.length] =
      .inr ({ Size := (bs.length : Int), Body := bs }, 0, bs, []) := by
    unfold readBody
    simp [readBodyLoop, trimCRLF_encodeBody, isYEnd_encodeBody, decodeLine_encodeBody bs hb,
      trimCRLF_trailer, isYEnd_trailer,
      parseTrailer_size_only ({ Body := bs } : Part) 0 bs.length hlen]
  have hvalid : Part.validate { Size := (bs.length : Int), Body := bs } = .ok () := by
    unfold Part.validate
    rw [if_neg (by simp)]
    rw [if_neg (by simp)]
  have hrun : run (encodeStream bs) =
      (.eof, { multipart := false, total := 0,
               parts := [{ Size := (bs.length : Int), Body := bs }], crc32exp := 0,
               sessionBytes := bs }) := by
    unfold run encodeStream
    show runLoop (3 + 1) {}
      [ascii "=ybegin", encodeBody bs, ascii "=yend size=" ++ natToDec bs.length] = _
    simp only [runLoop]
    simp only [show readHeaderScan
        [ascii "=ybegin", encodeBody bs, ascii "=yend size=" ++ natToDec bs.length] =
        some (ascii "=ybegin", [encodeBody bs, ascii "=yend size=" ++ natToDec bs.length])
      from rfl]
    simp only [show parseBeginHeader false 0 (ascii "=ybegin") = (({} : Part), false, 0) from by
      decide]
    simp [hbody, hvalid, readHeaderScan]
  unfold Decode
  rw [hrun]
  rfl

theorem yenc_roundtrip_witness :
    Decode (encodeStream [0, 10, 13, 61, 214, 224, 227, 255, 100]) =
      .ok { Size := 9, Body := [0, 10, 13, 61, 214, 224, 227, 255, 100] } := by
  have h := yenc_roundtrip [0, 10, 13, 61, 214, 224, 227, 255, 100] (by decide) (by decide)
  rw [h]
  rfl

end Yenc


